import Mathlib

/-!
# Verification of the NLCG beta-update strategies (argmin)

Shallow embedding of `src/argmin/src/solver/conjugategradient/beta.rs`:
the four beta-update strategies (Fletcher–Reeves, Polak–Ribière,
Polak–Ribière-Plus, Hestenes–Stiefel) for nonlinear conjugate gradient.

The strategies in the source are generic over a scalar type `F : ArgminFloat`
and vector types `G, P` constrained by the capability traits `ArgminDot`,
`ArgminSub`, `ArgminNorm`. The concrete capability implementations
(`argmin-math` `vec/dot.rs`, `vec/sub.rs`, `vec/norm.rs`) are not part of the
sources here, so they are modelled from the spec (§4.1): vectors are lists of
exact rationals, dot is Σ aᵢ·bᵢ, sub is elementwise, and the Euclidean norm
enters only through its square. The scalar type is modelled as an exact
rational extended with IEEE-754 special values (`+∞`, `-∞`, `NaN`), which the
spec designates as the outcome of a zero-denominator division (§7).
-/

/-- Modelled from the spec (§7, IEEE-754 semantics of the scalar type `F`;
the concrete `f64` instantiation is not under the given sources): a scalar is
a finite exact value or one of the IEEE-754 special values produced by
degenerate divisions. -/
inductive FP where
  | finite (q : ℚ)
  | posInf
  | negInf
  | nan
deriving DecidableEq, Repr

/-- Modelled from the spec (§7): division of two finite scalars with the
IEEE-754 rule for a zero denominator — a nonzero numerator gives a signed
infinity, `0/0` gives NaN. Finite values are exact (no rounding is
modelled). -/
def fdiv (a b : ℚ) : FP :=
  if b ≠ 0 then FP.finite (a / b)
  else if 0 < a then FP.posInf
  else if a < 0 then FP.negInf
  else FP.nan

/-- Modelled from the spec (§4.2.3, `F: ArgminFloat` maximum as used by the
PR+ clamp; concrete `f64::max` is not under the given sources): the maximum of
two scalars, ignoring a NaN operand — if one argument is NaN the other is
returned — with the infinities ordered around all finite values. -/
def fmax : FP → FP → FP
  | FP.nan, y => y
  | x, FP.nan => x
  | FP.posInf, _ => FP.posInf
  | _, FP.posInf => FP.posInf
  | FP.negInf, y => y
  | x, FP.negInf => x
  | FP.finite a, FP.finite b => FP.finite (max a b)

/-- `true` iff the scalar is not NaN, not `-∞`, and not a negative finite
value: the values the spec calls non-negative. -/
def FP.nonneg : FP → Bool
  | FP.finite q => decide (0 ≤ q)
  | FP.posInf => true
  | FP.negInf => false
  | FP.nan => false

/-- Modelled from the spec (§4.1 Dot; `argmin-math` `vec/dot.rs` is not under
the given sources): `dot(a, b) = Σ aᵢ·bᵢ` on vectors of equal dimension. -/
def dot (a b : List ℚ) : ℚ :=
  (List.zipWith (· * ·) a b).sum

/-- Modelled from the spec (§4.1 Sub; `argmin-math` `vec/sub.rs` is not under
the given sources): elementwise subtraction producing a new vector. -/
def sub (a b : List ℚ) : List ℚ :=
  List.zipWith (· - ·) a b

/-- Modelled from the spec (§4.1 Norm, Euclidean/L2; `argmin-math`
`vec/norm.rs` is not under the given sources): the strategies use the norm
only through `norm().powi(2)`, and in exact arithmetic
`sqrt(Σ aᵢ²)² = Σ aᵢ²`, so the squared norm is embedded directly as the dot
product of the vector with itself. -/
def normSq (a : List ℚ) : ℚ :=
  dot a a

/-- Fletcher–Reeves update, from `FletcherReeves::update` in `beta.rs`:
`dfk1.dot(dfk1) / dfk.dot(dfk)`; the direction argument `_pk` is unused. -/
def FletcherReeves.update (dfk dfk1 : List ℚ) (_pk : List ℚ) : FP :=
  fdiv (dot dfk1 dfk1) (dot dfk dfk)

/-- Polak–Ribière update, from `PolakRibiere::update` in `beta.rs`:
`dfk1.dot(&dfk1.sub(dfk)) / dfk.norm().powi(2)`; `_pk` is unused. -/
def PolakRibiere.update (dfk dfk1 : List ℚ) (_pk : List ℚ) : FP :=
  fdiv (dot dfk1 (sub dfk1 dfk)) (normSq dfk)

/-- Polak–Ribière-Plus update, from `PolakRibierePlus::update` in `beta.rs`:
the PR value clamped by `F::from_f64(0.0).unwrap().max(beta)`; `_pk` is
unused. -/
def PolakRibierePlus.update (dfk dfk1 : List ℚ) (_pk : List ℚ) : FP :=
  fmax (FP.finite 0) (fdiv (dot dfk1 (sub dfk1 dfk)) (normSq dfk))

/-- Hestenes–Stiefel update, from `HestenesStiefel::update` in `beta.rs`:
`let d = dfk1.sub(dfk); dfk1.dot(&d) / d.dot(pk)`. -/
def HestenesStiefel.update (dfk dfk1 : List ℚ) (pk : List ℚ) : FP :=
  let d := sub dfk1 dfk
  fdiv (dot dfk1 d) (dot d pk)

/-- The closed set of strategy selectors, mirroring the four unit structs
implementing `NLCGBetaUpdate` in `beta.rs`. -/
inductive Strategy where
  | fletcherReeves
  | polakRibiere
  | polakRibierePlus
  | hestenesStiefel
deriving DecidableEq, Repr

/-- Dispatch of the `NLCGBetaUpdate::update` interface over the four
strategies. -/
def NLCGBetaUpdate.update : Strategy → List ℚ → List ℚ → List ℚ → FP
  | Strategy.fletcherReeves => FletcherReeves.update
  | Strategy.polakRibiere => PolakRibiere.update
  | Strategy.polakRibierePlus => PolakRibierePlus.update
  | Strategy.hestenesStiefel => HestenesStiefel.update

/-- Spec-side Fletcher–Reeves formula (§4.2.1), written from the spec's
words: `beta = (grad_new · grad_new) / (grad_prev · grad_prev)`. -/
def fletcherReevesSpec (gradPrev gradNew : List ℚ) : FP :=
  fdiv (dot gradNew gradNew) (dot gradPrev gradPrev)

/-- Spec-side Polak–Ribière formula (§4.2.2), written from the spec's words:
`beta = (grad_new · (grad_new − grad_prev)) / ‖grad_prev‖²`. -/
def polakRibiereSpec (gradPrev gradNew : List ℚ) : FP :=
  fdiv (dot gradNew (sub gradNew gradPrev)) (normSq gradPrev)

/-- Spec-side Hestenes–Stiefel formula (§4.2.4), written from the spec's
words: `d = grad_new − grad_prev`, `beta = (grad_new · d) / (d · dir_prev)`. -/
def hestenesStiefelSpec (gradPrev gradNew dirPrev : List ℚ) : FP :=
  fdiv (dot gradNew (sub gradNew gradPrev)) (dot (sub gradNew gradPrev) dirPrev)

/- ## Helper lemmas -/

theorem dot_self_cons (a : ℚ) (t : List ℚ) :
    dot (a :: t) (a :: t) = a * a + dot t t := by
  simp [dot, List.zipWith]

theorem dot_self_nonneg (g : List ℚ) : 0 ≤ dot g g := by
  induction g with
  | nil => simp [dot]
  | cons a t ih =>
    rw [dot_self_cons]
    nlinarith [mul_self_nonneg a]

theorem dot_self_pos (g : List ℚ) (h : ∃ x ∈ g, x ≠ 0) : 0 < dot g g := by
  induction g with
  | nil => simp at h
  | cons a t ih =>
    rw [dot_self_cons]
    rcases h with ⟨x, hx, hxne⟩
    rcases List.mem_cons.mp hx with hxa | hxt
    · subst hxa
      have h1 : 0 < x * x := mul_self_pos.mpr hxne
      linarith [dot_self_nonneg t]
    · have := ih ⟨x, hxt, hxne⟩
      nlinarith [mul_self_nonneg a]

theorem dot_self_zero (g : List ℚ) (h : ∀ x ∈ g, x = 0) : dot g g = 0 := by
  induction g with
  | nil => simp [dot]
  | cons a t ih =>
    rw [dot_self_cons]
    have ha : a = 0 := h a (List.mem_cons_self a t)
    have ht : dot t t = 0 := ih fun x hx => h x (List.mem_cons_of_mem a hx)
    simp [ha, ht]

theorem fmax_zero_not_nan (x : FP) : fmax (FP.finite 0) x ≠ FP.nan := by
  cases x <;> simp [fmax]

theorem fmax_zero_nonneg (x : FP) : (fmax (FP.finite 0) x).nonneg = true := by
  cases x with
  | finite b => simp [fmax, FP.nonneg, le_max_iff]
  | posInf => rfl
  | negInf => rfl
  | nan => simp [fmax, FP.nonneg]

/- ## Claim theorems -/

/-- C1: on the 2-dimensional inputs `grad_prev = [1, 0]`, `grad_new = [0, 1]`,
`dir_prev = [1, 0]`, the four strategies return exactly FR = 1, PR = 1,
PR+ = 1 and HS = -1. -/
theorem strategies_concrete_example :
    FletcherReeves.update [1, 0] [0, 1] [1, 0] = FP.finite 1 ∧
    PolakRibiere.update [1, 0] [0, 1] [1, 0] = FP.finite 1 ∧
    PolakRibierePlus.update [1, 0] [0, 1] [1, 0] = FP.finite 1 ∧
    HestenesStiefel.update [1, 0] [0, 1] [1, 0] = FP.finite (-1) := by
  refine ⟨?_, ?_, ?_, ?_⟩ <;>
    norm_num [FletcherReeves.update, PolakRibiere.update, PolakRibierePlus.update,
      HestenesStiefel.update, dot, sub, normSq, fdiv, fmax]

/-- C2: for every input triple, PR+ returns the maximum of zero and the PR
value computed on the same inputs; and on `grad_prev = [2]`, `grad_new = [1]`
the PR numerator is negative, PR returns `-1/4`, and PR+ differs from PR and
returns exactly 0. -/
theorem prPlus_clamp :
    (∀ g1 g2 p, PolakRibierePlus.update g1 g2 p =
        fmax (FP.finite 0) (PolakRibiere.update g1 g2 p)) ∧
    (PolakRibiere.update [2] [1] [1] = FP.finite (-1/4) ∧
      PolakRibierePlus.update [2] [1] [1] = FP.finite 0 ∧
      PolakRibierePlus.update [2] [1] [1] ≠ PolakRibiere.update [2] [1] [1]) := by
  refine ⟨fun g1 g2 p => rfl, ?_, ?_, ?_⟩ <;>
    norm_num [PolakRibiere.update, PolakRibierePlus.update, dot, sub, normSq,
      fdiv, fmax]

/-- C3: for every pair of gradients and every direction, the Fletcher–Reeves
update equals the spec formula `(grad_new · grad_new) / (grad_prev · grad_prev)`
built from the capability-layer dot product. -/
theorem fletcherReeves_matches_spec (g1 g2 p : List ℚ) :
    FletcherReeves.update g1 g2 p = fletcherReevesSpec g1 g2 := rfl

/-- C4: for every pair of gradients and every direction, the Hestenes–Stiefel
update equals the spec formula with `d = grad_new − grad_prev`:
`(grad_new · d) / (d · dir_prev)` built from the capability-layer subtraction
and dot product. -/
theorem hestenesStiefel_matches_spec (g1 g2 p : List ℚ) :
    HestenesStiefel.update g1 g2 p = hestenesStiefelSpec g1 g2 p := rfl

/-- C5: for every pair of gradients and every direction, the Polak–Ribière
update equals the spec formula
`(grad_new · (grad_new − grad_prev)) / ‖grad_prev‖²`, whose denominator is the
square of the capability-layer norm of `grad_prev`. -/
theorem polakRibiere_matches_spec (g1 g2 p : List ℚ) :
    PolakRibiere.update g1 g2 p = polakRibiereSpec g1 g2 := rfl

/-- C6: for every non-zero `grad_prev` and `grad_new` (and any direction), the
Fletcher–Reeves update is non-negative, being a ratio of two squared norms. -/
theorem fletcherReeves_nonneg (g1 g2 p : List ℚ)
    (h1 : ∃ x ∈ g1, x ≠ 0) (_h2 : ∃ x ∈ g2, x ≠ 0) :
    (FletcherReeves.update g1 g2 p).nonneg = true := by
  have hd1 : 0 < dot g1 g1 := dot_self_pos g1 h1
  have hd2 : 0 ≤ dot g2 g2 := dot_self_nonneg g2
  have hne : dot g1 g1 ≠ 0 := ne_of_gt hd1
  simp only [FletcherReeves.update, fdiv, hne, ne_eq, not_false_eq_true, if_true,
    FP.nonneg, decide_eq_true_eq]
  exact div_nonneg hd2 hd1.le

/-- Witness for C6 at `grad_prev = [1, 0]`, `grad_new = [0, 1]`,
`dir_prev = [1, 0]`. -/
theorem fletcherReeves_nonneg_witness :
    (FletcherReeves.update [1, 0] [0, 1] [1, 0]).nonneg = true :=
  fletcherReeves_nonneg [1, 0] [0, 1] [1, 0] (by norm_num) (by norm_num)

/-- C7: if `grad_prev` is the zero vector, the Fletcher–Reeves update returns
`+∞` when the numerator `grad_new · grad_new` is non-zero, NaN when the
numerator is also zero, and in either case a non-finite value rather than an
error. -/
theorem fletcherReeves_zero_gradprev (g1 g2 p : List ℚ) (h : ∀ x ∈ g1, x = 0) :
    (dot g2 g2 ≠ 0 → FletcherReeves.update g1 g2 p = FP.posInf) ∧
    (dot g2 g2 = 0 → FletcherReeves.update g1 g2 p = FP.nan) ∧
    (∀ q : ℚ, FletcherReeves.update g1 g2 p ≠ FP.finite q) := by
  have hden : dot g1 g1 = 0 := dot_self_zero g1 h
  have hnum : 0 ≤ dot g2 g2 := dot_self_nonneg g2
  simp only [FletcherReeves.update, fdiv, hden]
  refine ⟨fun hne => ?_, fun heq => ?_, fun q => ?_⟩
  · have hpos : 0 < dot g2 g2 := lt_of_le_of_ne hnum (Ne.symm hne)
    simp [hpos]
  · simp [heq]
  · by_cases hz : dot g2 g2 = 0
    · simp [hz]
    · have hpos : 0 < dot g2 g2 := lt_of_le_of_ne hnum (Ne.symm hz)
      simp [hpos]

/-- Witness for C7 at `grad_prev = [0, 0]`: with `grad_new = [0, 1]` the
result is `+∞`, with `grad_new = [0, 0]` it is NaN. -/
theorem fletcherReeves_zero_gradprev_witness :
    FletcherReeves.update [0, 0] [0, 1] [1, 0] = FP.posInf ∧
    FletcherReeves.update [0, 0] [0, 0] [1, 0] = FP.nan := by
  constructor
  · exact (fletcherReeves_zero_gradprev [0, 0] [0, 1] [1, 0] (by simp)).1
      (by norm_num [dot])
  · exact (fletcherReeves_zero_gradprev [0, 0] [0, 0] [1, 0] (by simp)).2.1
      (by norm_num [dot])

/-- C8: for every strategy variant and every input triple, two calls of
`update` with identical inputs return identical results — also when all three
arguments are the very same vector — and, the embedding being a pure function
of the argument values, no call modifies its inputs. -/
theorem update_deterministic (s : Strategy) (g1 g2 p : List ℚ) :
    NLCGBetaUpdate.update s g1 g2 p = NLCGBetaUpdate.update s g1 g2 p ∧
    NLCGBetaUpdate.update s g1 g1 g1 = NLCGBetaUpdate.update s g1 g1 g1 :=
  ⟨rfl, rfl⟩

/-- C9: whenever PR returns NaN or `-∞`, PR+ returns exactly 0 — the clamp
`0.max(beta)` ignores a NaN operand — and PR+ never returns NaN or a negative
value. -/
theorem prPlus_never_nan_or_negative (g1 g2 p : List ℚ) :
    ((PolakRibiere.update g1 g2 p = FP.nan ∨
        PolakRibiere.update g1 g2 p = FP.negInf) →
      PolakRibierePlus.update g1 g2 p = FP.finite 0) ∧
    (PolakRibierePlus.update g1 g2 p).nonneg = true ∧
    PolakRibierePlus.update g1 g2 p ≠ FP.nan := by
  have hrw : PolakRibierePlus.update g1 g2 p
      = fmax (FP.finite 0) (PolakRibiere.update g1 g2 p) := rfl
  refine ⟨fun h => ?_, ?_, ?_⟩
  · rcases h with h | h <;> rw [hrw, h] <;> rfl
  · rw [hrw]; exact fmax_zero_nonneg _
  · rw [hrw]; exact fmax_zero_not_nan _

/-- Witness for C9 at `grad_prev = grad_new = [0]`, where PR computes `0/0`
and returns NaN while PR+ returns exactly 0. -/
theorem prPlus_never_nan_or_negative_witness :
    PolakRibierePlus.update [0] [0] [0] = FP.finite 0 :=
  (prPlus_never_nan_or_negative [0] [0] [0]).1
    (Or.inl (by norm_num [PolakRibiere.update, dot, sub, normSq, fdiv]))

/-- C10: the FR, PR and PR+ results do not depend on the `dir_prev` argument —
for all gradients and any two directions they return the same scalar — while
Hestenes–Stiefel does read the direction: there are inputs on which changing
only `dir_prev` changes its result. -/
theorem direction_independence :
    (∀ g1 g2 p p' : List ℚ,
      FletcherReeves.update g1 g2 p = FletcherReeves.update g1 g2 p') ∧
    (∀ g1 g2 p p' : List ℚ,
      PolakRibiere.update g1 g2 p = PolakRibiere.update g1 g2 p') ∧
    (∀ g1 g2 p p' : List ℚ,
      PolakRibierePlus.update g1 g2 p = PolakRibierePlus.update g1 g2 p') ∧
    (∃ g1 g2 p p' : List ℚ,
      HestenesStiefel.update g1 g2 p ≠ HestenesStiefel.update g1 g2 p') :=
  ⟨fun _ _ _ _ => rfl, fun _ _ _ _ => rfl, fun _ _ _ _ => rfl,
    ⟨[1, 0], [0, 1], [1, 0], [0, 1],
      by norm_num [HestenesStiefel.update, dot, sub, fdiv]⟩⟩
